import Mathlib

/-!
Shallow embedding of `src/parse.ts` from the duml-beagle-parse repository.

Hex-string buffers are embedded as `List Char` (one list element per hex
character, exactly mirroring JavaScript string indexing, `slice`, `indexOf`,
`startsWith` and `length`).  The external packet codec (`duml-packet`) is a
parameter `decode : List Char → Option Packet`, where `none` models a thrown
decoding exception; the short-form renderer `toShortString` is a parameter
`render : Packet → α`.  Exceptions that the source does not catch are modelled
by `Option` results at the level of the affected functions.
-/

set_option maxRecDepth 4000

/-- Transfer direction of a trace record (`"RX" | "TX"` in the source). -/
inductive Direction where
  | RX
  | TX
  deriving Repr, DecidableEq

/-- The fields of the external `Packet` object that `parse.ts` reads:
`length` (frame byte count), `commandType`, `ackType`, `sequenceID`,
and the result of `isValid()`. -/
structure Packet where
  length : Nat
  commandType : Nat
  ackType : Nat
  sequenceID : Nat
  valid : Bool
  deriving Repr, DecidableEq

/-- The result of `packet.isValid()` on the external codec's packet. -/
def Packet.isValid (p : Packet) : Bool := p.valid

/-- Interface `ParsedData` of `parse.ts`. -/
structure ParsedData where
  timestamp : String
  direction : Direction
  packet : Packet
  deriving Repr, DecidableEq

/-- Interface `PacketData` of `parse.ts`; its `packet` field holds the output
of the external renderer, so it is a type parameter here. -/
structure PacketData (α : Type) where
  timestamp : String
  direction : Direction
  packet : α
  deriving Repr, DecidableEq

/-- Interface `PairedPacket` of `parse.ts`. -/
structure PairedPacket (α : Type) where
  request : PacketData α
  response : PacketData α
  deriving Repr, DecidableEq

/-- Interface `ParsedResult` of `parse.ts`. -/
structure ParsedResult (α : Type) where
  pairedPackets : List (PairedPacket α)
  unpairedPackets : List (PacketData α)
  singularPackets : List (PacketData α)
  deriving Repr, DecidableEq

/-- The object literal `{ timestamp, direction, packet: x.packet.toShortString() }`
built at each emission site of `pairPackets`. -/
def toPacketData {α : Type} (render : Packet → α) (pd : ParsedData) : PacketData α :=
  ⟨pd.timestamp, pd.direction, render pd.packet⟩

/-- The matching condition of `pairPackets` (line 190-191):
`p.packet.sequenceID === requestPacket.packet.sequenceID && p.direction !== requestPacket.direction`. -/
def ackMatches (requestPacket p : ParsedData) : Bool :=
  p.packet.sequenceID == requestPacket.packet.sequenceID &&
    p.direction != requestPacket.direction

/-- State threaded through the `requestPackets.forEach` loop of `pairPackets`.
`acks` and `reqs` model the two JavaScript arrays in which `delete` punches
holes: a hole is `none`. -/
structure PairState (α : Type) where
  acks : List (Option ParsedData)
  reqs : List (Option ParsedData)
  paired : List (PairedPacket α)
  unpaired : List (PacketData α)
  deriving Repr, DecidableEq

/-- The `ackPackets.filter((p, i) => ...)` pass of `pairPackets` (lines 187-197),
restricted to present (non-hole) elements exactly as `Array.prototype.filter`
is: returns, in order, the pairs (index in `acks`, element) of the present
elements satisfying `ackMatches`.  Its head is `.at(0)` (the emitted
`matchingResponse`) and the index of its last entry is the final value the
callback left in `matchedIndex`. -/
def matchScanGo (requestPacket : ParsedData) :
    Nat → List (Option ParsedData) → List (Nat × ParsedData)
  | _, [] => []
  | i, none :: rest => matchScanGo requestPacket (i + 1) rest
  | i, some p :: rest =>
    if ackMatches requestPacket p then
      (i, p) :: matchScanGo requestPacket (i + 1) rest
    else
      matchScanGo requestPacket (i + 1) rest

/-- The scan started at index 0 (the whole `ackPackets` array). -/
def matchScan (requestPacket : ParsedData) (acks : List (Option ParsedData)) :
    List (Nat × ParsedData) :=
  matchScanGo requestPacket 0 acks

/-- One iteration of the `requestPackets.forEach` body (lines 185-218).
`ir` is `(requestIndex, requestPacket)`.  If a matching response exists, the
source emits the first present match as the pair's `response` but `delete`s
the entry at `matchedIndex`, which the filter callback left at the index of
the LAST present match; it also `delete`s the current request.  Otherwise it
pushes the request on `unpairedPackets`. -/
def pairStep {α : Type} (render : Packet → α) (st : PairState α)
    (ir : Nat × ParsedData) : PairState α :=
  let requestPacketData := toPacketData render ir.2
  match matchScan ir.2 st.acks with
  | [] => { st with unpaired := st.unpaired ++ [requestPacketData] }
  | m :: rest =>
    let matchedIndex := (List.getLast (m :: rest) (List.cons_ne_nil m rest)).1
    { st with
        acks := st.acks.set matchedIndex none,
        reqs := st.reqs.set ir.1 none,
        paired := st.paired ++ [⟨requestPacketData, toPacketData render m.2⟩] }

/-- The whole `requestPackets.forEach` loop.  `Array.prototype.forEach` visits
the indices `0, …, length-1` in order and skips holes; since the body only
deletes the element currently being visited (never a later one), every
original request is visited with its original index, which is what folding
over the enumerated original array expresses. -/
def pairLoop {α : Type} (render : Packet → α) (st : PairState α)
    (reqs : List (Nat × ParsedData)) : PairState α :=
  reqs.foldl (pairStep render) st

/-- Function `pairPackets` of `parse.ts` (lines 162-251), with the external
`toShortString` renderer abstracted as `render`. -/
def pairPackets {α : Type} (render : Packet → α) (parsedPackets : List ParsedData) :
    ParsedResult α :=
  -- REQUEST && !NO_ACK - filter only requests which ask for a reply
  let requestPackets := parsedPackets.filter fun p =>
    p.packet.commandType == 0 && p.packet.ackType != 0
  -- ACK - specifically expecting replies
  let ackPackets := parsedPackets.filter fun p => p.packet.commandType == 1
  -- NO_ACK - will never have responses
  let singularPackets :=
    (parsedPackets.filter fun p => p.packet.ackType == 0).map (toPacketData render)
  let st0 : PairState α := ⟨ackPackets.map some, requestPackets.map some, [], []⟩
  let st := pairLoop render st0 requestPackets.enum
  -- `delete` leaves the JavaScript arrays' length unchanged, so the two
  -- leftover sweeps test the original lengths; `filter(p => p !== null)`
  -- skips holes and keeps every present element.
  let leftoverAcks :=
    if ackPackets.length > 0 then (st.acks.filterMap id).map (toPacketData render)
    else []
  let leftoverReqs :=
    if requestPackets.length > 0 then (st.reqs.filterMap id).map (toPacketData render)
    else []
  ⟨st.paired, st.unpaired ++ leftoverAcks ++ leftoverReqs, singularPackets⟩

/-- Embedding of `String.prototype.includes` on character lists (used for
`row[9].includes("IN")` / `row[9].includes("OUT")`). -/
def containsSub (pat : List Char) : List Char → Bool
  | [] => pat.isPrefixOf ([] : List Char)
  | c :: rest => pat.isPrefixOf (c :: rest) || containsSub pat rest

/-- Embedding of `String.prototype.indexOf` on character lists (used for
`hexString.indexOf("55")`); `none` models the JavaScript result `-1`. -/
def indexOfSub (pat : List Char) : List Char → Option Nat
  | [] => if pat.isPrefixOf ([] : List Char) then some 0 else none
  | c :: rest =>
    if pat.isPrefixOf (c :: rest) then some 0
    else (indexOfSub pat rest).map (fun n => n + 1)

/-- Lines 141-143 of `processBuffer`: the possibly re-decoded packet that one
loop iteration accepts, given that the first decode returned `p0` on the
character buffer `hexString`.  The re-decode on line 142 is outside the
`try`, so its failure (`none`) is an uncaught exception. -/
def acceptPacket (decode : List Char → Option Packet) (hexString : List Char)
    (p0 : Packet) : Option Packet :=
  if !p0.isValid && p0.length < hexString.length * 2 then
    decode (hexString.take (p0.length * 2))
  else
    some p0

/-- The `do … while (packet?.isValid())` loop of `processBuffer`
(lines 134-159).  `hexString` is the local loop variable; `buf` is the value
the caller's direction buffer currently holds (it is only changed by the
`updateBuffer` calls, so on an early `return` the last written value - or the
caller's original buffer, if no iteration completed - survives).  `fuel`
bounds the iteration count; the source loop can only run forever if the codec
keeps returning valid zero-length packets, in which case the fuel cutoff
returns the state reached so far.  The overall `none` models an uncaught
re-decode exception. -/
def processBufferGo (decode : List Char → Option Packet) (direction : Direction)
    (timestamp : String) :
    List Char → List Char → List ParsedData → Nat →
    Option (List ParsedData × List Char)
  | _, buf, acc, 0 => some (acc, buf)
  | hexString, buf, acc, fuel + 1 =>
    match decode hexString with
    | none => some (acc, buf) -- `catch (error) { return; }`
    | some p0 =>
      match acceptPacket decode hexString p0 with
      | none => none -- uncaught exception from the line-142 re-decode
      | some p =>
        let rest := hexString.drop (p.length * 2)
        let acc' := acc ++ [⟨timestamp, direction, p⟩]
        let buf' := if (['5', '5'] : List Char).isPrefixOf rest then rest else []
        if p.isValid then
          processBufferGo decode direction timestamp rest buf' acc' fuel
        else
          some (acc', buf')

/-- Function `processBuffer` of `parse.ts` (lines 123-160): called with the direction
buffer's current content both as the data to decode and as the initial
carry-over value. -/
def processBuffer (decode : List Char → Option Packet) (direction : Direction)
    (timestamp : String) (currentHexString : List Char) :
    Option (List ParsedData × List Char) :=
  processBufferGo decode direction timestamp currentHexString currentHexString []
    (currentHexString.length + 1)

/-- The four columns of a trace row that `parseCSV` reads:
`row[0]` (record marker), `row[3]` (timestamp), `row[9]` (direction token),
`row[10]` (raw hex payload). -/
structure Row where
  marker : String
  timestamp : String
  dirToken : List Char
  hexRaw : List Char
  deriving Repr, DecidableEq

/-- The mutable state of `parseCSV`: the accumulated `results` array, the two
direction buffers, and the `processed` / `skipped` counters. -/
structure PState where
  results : List ParsedData
  rx : List Char
  tx : List Char
  processed : Nat
  skipped : Nat
  deriving Repr, DecidableEq

/-- Initial state of a `parseCSV` run: empty results, empty buffers, zero
counters. -/
def initState : PState := ⟨[], [], [], 0, 0⟩

/-- The per-direction branch bodies of the `data` handler (lines 61-108); the
source duplicates this code verbatim for RX and TX, so it is factored over
the current buffer value.  Returns the updated state (results/counters) and
the new value for that direction's buffer, or `none` on an uncaught
exception. -/
def feedChunk (decode : List Char → Option Packet) (timestamp : String)
    (direction : Direction) (st : PState) (currentBuf hexString0 : List Char) :
    Option (PState × List Char) :=
  let trimmed : Option (List Char) :=
    if currentBuf.length = 0 then
      match indexOfSub ['5', '5'] hexString0 with
      | none => none
      | some i => some (hexString0.drop i)
    else some hexString0
  match trimmed with
  | none => some ({ st with skipped := st.skipped + 1 }, currentBuf)
  | some hs =>
    let newBuf := currentBuf ++ hs
    -- dead re-check of emptiness in the source (lines 75-78 / 89-92)
    if newBuf.length = 0 then some ({ st with skipped := st.skipped + 1 }, newBuf)
    else
      match processBuffer decode direction timestamp newBuf with
      | none => none
      | some (pkts, leftover) =>
        some ({ st with results := st.results ++ pkts,
                        processed := st.processed + 1 }, leftover)

/-- One `data` event of `parseCSV` (lines 46-112). -/
def stepRow (decode : List Char → Option Packet) (st : PState) (row : Row) :
    Option PState :=
  if row.marker = "0" then
    if !(containsSub ['I', 'N'] row.dirToken || containsSub ['O', 'U', 'T'] row.dirToken) then
      some { st with skipped := st.skipped + 1 }
    else
      let direction :=
        if containsSub ['I', 'N'] row.dirToken then Direction.RX else Direction.TX
      let hexString := row.hexRaw.filter fun c => !c.isWhitespace
      if hexString.length = 0 then
        some { st with skipped := st.skipped + 1 }
      else
        match direction with
        | Direction.RX =>
          match feedChunk decode row.timestamp Direction.RX st st.rx hexString with
          | none => none
          | some (st', buf') => some { st' with rx := buf' }
        | Direction.TX =>
          match feedChunk decode row.timestamp Direction.TX st st.tx hexString with
          | none => none
          | some (st', buf') => some { st' with tx := buf' }
  else
    some { st with skipped := st.skipped + 1 }

/-- A whole `parseCSV` run over the trace rows, from the initial state. -/
def runRows (decode : List Char → Option Packet) (rows : List Row) : Option PState :=
  rows.foldlM (stepRow decode) initState

/-- Test instance of the external codec, used to evaluate the reassembler on
concrete traces: it accepts exactly the hex frame `55AB0400` as a valid
4-byte packet and fails on every other buffer. -/
def testDecode (l : List Char) : Option Packet :=
  if l = ['5', '5', 'A', 'B', '0', '4', '0', '0'] then some ⟨4, 0, 1, 9, true⟩
  else none

/-- The buffer invariant of the two DirectionBuffers: once non-empty, the hex
text begins with the synchronization byte text `55`. -/
def buffInv (st : PState) : Prop :=
  (st.rx ≠ [] → (['5', '5'] : List Char).isPrefixOf st.rx = true) ∧
  (st.tx ≠ [] → (['5', '5'] : List Char).isPrefixOf st.tx = true)

/-! ## Theorems -/

/-- C1: evaluation at the failing input.  A single candidate request
(`commandType = 0`, `ackType = 1`) with no matching response is emitted TWICE
in `unpairedPackets`: once by the matching pass (which does not delete an
unmatched request) and once again by the leftover-request sweep.  The claim
says every packet appears exactly once across the three outputs. -/
theorem c1_unmatched_request_emitted_twice :
    pairPackets id [⟨"t1", Direction.TX, ⟨2, 0, 1, 7, true⟩⟩] =
      ⟨[],
       [⟨"t1", Direction.TX, ⟨2, 0, 1, 7, true⟩⟩,
        ⟨"t1", Direction.TX, ⟨2, 0, 1, 7, true⟩⟩],
       []⟩ := by
  decide

/-- C2: counterexample.  With one request (`t1`), two matching responses
(`t2`, `t3`) and a second request (`t4`) all on `sequenceID = 7`, the first
response `t2` is emitted as the response member of BOTH pairs (the filter
callback leaves `matchedIndex` at the LAST match, so `t3` is deleted while
the emitted `t2` stays eligible), and `t3` appears in no output at all.  The
claim says each response is consumed by at most one request and that later
tied responses remain eligible. -/
theorem c2_first_response_consumed_twice :
    ((pairPackets id
        [⟨"t1", Direction.TX, ⟨2, 0, 1, 7, true⟩⟩,
         ⟨"t2", Direction.RX, ⟨2, 1, 1, 7, true⟩⟩,
         ⟨"t3", Direction.RX, ⟨2, 1, 1, 7, true⟩⟩,
         ⟨"t4", Direction.TX, ⟨2, 0, 1, 7, true⟩⟩]).pairedPackets.map
      (fun pr => pr.response.timestamp) = ["t2", "t2"]) ∧
    (pairPackets id
        [⟨"t1", Direction.TX, ⟨2, 0, 1, 7, true⟩⟩,
         ⟨"t2", Direction.RX, ⟨2, 1, 1, 7, true⟩⟩,
         ⟨"t3", Direction.RX, ⟨2, 1, 1, 7, true⟩⟩,
         ⟨"t4", Direction.TX, ⟨2, 0, 1, 7, true⟩⟩]).unpairedPackets = [] := by
  decide

/-- C3: counterexample.  A packet with `commandType = 1` and `ackType = 0`
passes the candidate-response filter (which tests only `commandType === 1`),
so it is emitted in `unpairedPackets` by the leftover-response sweep even
though its `ackType` is 0 - and it also appears in `singularPackets`.  The
claim says no packet with `ackType == 0` ever appears in paired or
unpaired. -/
theorem c3_ack0_response_reaches_unpaired :
    (pairPackets id [⟨"t1", Direction.RX, ⟨2, 1, 0, 5, true⟩⟩]).unpairedPackets =
      [⟨"t1", Direction.RX, ⟨2, 1, 0, 5, true⟩⟩] ∧
    (⟨2, 1, 0, 5, true⟩ : Packet).ackType = 0 := by
  decide

/-- C7: evaluation at the failing input.  On an empty RX buffer and the
sanitized chunk `0550` (bytes `05 50`), `indexOf("55")` matches at character
offset 1, inside a byte; the Stream Reassembler hands the Frame Extractor the
buffer `550`, which has odd length and does not start on a byte boundary.
The claim says every buffer handed over consists of whole hex-encoded
bytes. -/
theorem c7_sync_match_inside_byte :
    stepRow (fun _ => none) initState ⟨"0", "t0", ['I', 'N'], ['0', '5', '5', '0']⟩ =
      some ⟨[], ['5', '5', '0'], [], 1, 0⟩ ∧
    (['5', '5', '0'] : List Char).length % 2 = 1 := by
  decide

/-- C8: evaluation at the failing input.  Feeding the valid frame `55AB0400`
as one chunk decodes one packet; splitting the same bytes as `5` + `5AB0400`
(no byte lost at the split) decodes nothing, because each fragment fed to an
empty buffer lacks the substring `55` and is skipped outright.  The claim
says the two feeds yield identical decoded-packet sequences. -/
theorem c8_straddled_sync_split_loses_frame :
    (['5'] : List Char) ++ ['5', 'A', 'B', '0', '4', '0', '0'] =
      ['5', '5', 'A', 'B', '0', '4', '0', '0'] ∧
    (runRows testDecode
        [⟨"0", "t0", ['I', 'N'], ['5', '5', 'A', 'B', '0', '4', '0', '0']⟩]).map
      (fun st => st.results.map (fun pd => pd.packet)) =
        some [⟨4, 0, 1, 9, true⟩] ∧
    (runRows testDecode
        [⟨"0", "t0", ['I', 'N'], ['5']⟩,
         ⟨"0", "t0", ['I', 'N'], ['5', 'A', 'B', '0', '4', '0', '0']⟩]).map
      (fun st => st.results.map (fun pd => pd.packet)) = some [] := by
  decide

/-- Every entry produced by the matching filter pass satisfies the matching
condition. -/
theorem matchScanGo_matches {r : ParsedData} :
    ∀ (acks : List (Option ParsedData)) (n : Nat) (ip : Nat × ParsedData),
      ip ∈ matchScanGo r n acks → ackMatches r ip.2 = true := by
  intro acks
  induction acks with
  | nil => intro n ip h; simp [matchScanGo] at h
  | cons o rest ih =>
    intro n ip h
    cases o with
    | none =>
      simp only [matchScanGo] at h
      exact ih (n + 1) ip h
    | some p =>
      by_cases hm : ackMatches r p
      · simp only [matchScanGo, hm, if_pos] at h
        rcases List.mem_cons.1 h with h1 | h2
        · rw [h1]; exact hm
        · exact ih (n + 1) ip h2
      · simp only [matchScanGo, hm, if_neg, Bool.false_eq_true, ite_false] at h
        exact ih (n + 1) ip h

/-- The `paired` output of one `forEach` iteration: it is unchanged, or it
grows by one pair built from the visited request and an entry of the matching
scan. -/
theorem pairStep_paired {α : Type} (render : Packet → α) (st : PairState α)
    (ir : Nat × ParsedData) :
    (pairStep render st ir).paired = st.paired ∨
    ∃ m, m ∈ matchScan ir.2 st.acks ∧
      (pairStep render st ir).paired =
        st.paired ++ [⟨toPacketData render ir.2, toPacketData render m.2⟩] := by
  cases h : matchScan ir.2 st.acks with
  | nil => left; simp [pairStep, h]
  | cons m rest =>
    right
    refine ⟨m, ?_, ?_⟩
    · exact List.mem_cons_self _ _
    · simp [pairStep, h]

/-- Every pair present after running the `forEach` loop was already present
or was built from a visited request and a matching response. -/
theorem pairLoop_paired {α : Type} (render : Packet → α) :
    ∀ (reqs : List (Nat × ParsedData)) (st : PairState α) (pr : PairedPacket α),
      pr ∈ (pairLoop render st reqs).paired →
      pr ∈ st.paired ∨
      ∃ i r m, (i, r) ∈ reqs ∧ ackMatches r m = true ∧
        pr = ⟨toPacketData render r, toPacketData render m⟩ := by
  intro reqs
  induction reqs with
  | nil => intro st pr h; exact Or.inl h
  | cons ir rest ih =>
    intro st pr h
    have h' : pr ∈ (pairLoop render (pairStep render st ir) rest).paired := h
    rcases ih (pairStep render st ir) pr h' with hin | ⟨i, r, m, hm, hma, hpr⟩
    · rcases pairStep_paired render st ir with heq | ⟨m, hmem, heq⟩
      · rw [heq] at hin; exact Or.inl hin
      · rw [heq] at hin
        rcases List.mem_append.1 hin with h1 | h2
        · exact Or.inl h1
        · have hpr : pr = ⟨toPacketData render ir.2, toPacketData render m.2⟩ := by
            simpa using h2
          exact Or.inr ⟨ir.1, ir.2, m.2, by simp, matchScanGo_matches _ 0 m hmem, hpr⟩
    · exact Or.inr ⟨i, r, m, List.mem_cons_of_mem _ hm, hma, hpr⟩

/-- An entry of the enumerated list is an entry of the list. -/
theorem mem_of_mem_enumFrom' {α : Type} :
    ∀ (l : List α) (n i : Nat) (a : α), (i, a) ∈ l.enumFrom n → a ∈ l := by
  intro l
  induction l with
  | nil => intro n i a h; simp [List.enumFrom] at h
  | cons b rest ih =>
    intro n i a h
    simp only [List.enumFrom, List.mem_cons, Prod.mk.injEq] at h
    rcases h with ⟨_, rfl⟩ | h
    · exact List.mem_cons_self _ _
    · exact List.mem_cons_of_mem _ (ih (n + 1) i a h)

/-- An entry of the enumerated list is an entry of the list. -/
theorem mem_of_mem_enum' {α : Type} {l : List α} {i : Nat} {a : α}
    (h : (i, a) ∈ l.enum) : a ∈ l :=
  mem_of_mem_enumFrom' l 0 i a h

/-- C4: every pair emitted by `pairPackets` joins a request and a response
with equal `sequenceID` and opposite directions, since the matching filter
admits exactly the candidate responses satisfying both conditions. -/
theorem c4_pair_members_match (parsedPackets : List ParsedData)
    (pr : PairedPacket Packet)
    (hpr : pr ∈ (pairPackets id parsedPackets).pairedPackets) :
    pr.request.packet.sequenceID = pr.response.packet.sequenceID ∧
    pr.request.direction ≠ pr.response.direction := by
  have h0 : pr ∈ (pairLoop id
      ⟨((parsedPackets.filter fun p => p.packet.commandType == 1).map some),
       ((parsedPackets.filter fun p =>
           p.packet.commandType == 0 && p.packet.ackType != 0).map some),
       [], []⟩
      (parsedPackets.filter fun p =>
         p.packet.commandType == 0 && p.packet.ackType != 0).enum).paired := by
    simpa [pairPackets] using hpr
  rcases pairLoop_paired id _ _ pr h0 with hin | ⟨i, r, m, _, hma, hpr'⟩
  · simp at hin
  · subst hpr'
    simp only [ackMatches, Bool.and_eq_true, beq_iff_eq, bne_iff_ne] at hma
    exact ⟨by simpa [toPacketData] using hma.1.symm,
           by simpa [toPacketData] using (Ne.symm hma.2)⟩

/-- C4 witness: a concrete run producing a pair, with the property evaluated
on it. -/
theorem c4_pair_members_match_witness :
    (⟨⟨"t1", Direction.TX, ⟨2, 0, 1, 7, true⟩⟩,
      ⟨"t2", Direction.RX, ⟨2, 1, 1, 7, true⟩⟩⟩ : PairedPacket Packet) ∈
      (pairPackets id ([⟨"t1", Direction.TX, ⟨2, 0, 1, 7, true⟩⟩,
                        ⟨"t2", Direction.RX, ⟨2, 1, 1, 7, true⟩⟩] :
         List ParsedData)).pairedPackets ∧
    ((⟨⟨"t1", Direction.TX, ⟨2, 0, 1, 7, true⟩⟩,
       ⟨"t2", Direction.RX, ⟨2, 1, 1, 7, true⟩⟩⟩ :
        PairedPacket Packet).request.packet.sequenceID =
      (⟨⟨"t1", Direction.TX, ⟨2, 0, 1, 7, true⟩⟩,
        ⟨"t2", Direction.RX, ⟨2, 1, 1, 7, true⟩⟩⟩ :
         PairedPacket Packet).response.packet.sequenceID ∧
     (⟨⟨"t1", Direction.TX, ⟨2, 0, 1, 7, true⟩⟩,
       ⟨"t2", Direction.RX, ⟨2, 1, 1, 7, true⟩⟩⟩ :
        PairedPacket Packet).request.direction ≠
      (⟨⟨"t1", Direction.TX, ⟨2, 0, 1, 7, true⟩⟩,
        ⟨"t2", Direction.RX, ⟨2, 1, 1, 7, true⟩⟩⟩ :
         PairedPacket Packet).response.direction) :=
  ⟨by decide,
   c4_pair_members_match
     ([⟨"t1", Direction.TX, ⟨2, 0, 1, 7, true⟩⟩,
       ⟨"t2", Direction.RX, ⟨2, 1, 1, 7, true⟩⟩] : List ParsedData)
     (⟨⟨"t1", Direction.TX, ⟨2, 0, 1, 7, true⟩⟩,
       ⟨"t2", Direction.RX, ⟨2, 1, 1, 7, true⟩⟩⟩ : PairedPacket Packet)
     (by decide)⟩

/-- The `unpaired` output of one `forEach` iteration: unchanged, or extended
by the visited request's rendering. -/
theorem pairStep_unpaired {α : Type} (render : Packet → α) (st : PairState α)
    (ir : Nat × ParsedData) :
    (pairStep render st ir).unpaired = st.unpaired ∨
    (pairStep render st ir).unpaired =
      st.unpaired ++ [toPacketData render ir.2] := by
  cases h : matchScan ir.2 st.acks with
  | nil => right; simp [pairStep, h]
  | cons m rest => left; simp [pairStep, h]

/-- Every entry of the matching pass's `unpaired` list was already present or
is the rendering of a visited request. -/
theorem pairLoop_unpaired {α : Type} (render : Packet → α) :
    ∀ (reqs : List (Nat × ParsedData)) (st : PairState α) (pd : PacketData α),
      pd ∈ (pairLoop render st reqs).unpaired →
      pd ∈ st.unpaired ∨
      ∃ i r, (i, r) ∈ reqs ∧ pd = toPacketData render r := by
  intro reqs
  induction reqs with
  | nil => intro st pd h; exact Or.inl h
  | cons ir rest ih =>
    intro st pd h
    rcases ih (pairStep render st ir) pd h with hin | ⟨i, r, hm, hpd⟩
    · rcases pairStep_unpaired render st ir with heq | heq
      · rw [heq] at hin; exact Or.inl hin
      · rw [heq] at hin
        rcases List.mem_append.1 hin with h1 | h2
        · exact Or.inl h1
        · exact Or.inr ⟨ir.1, ir.2, by simp, by simpa using h2⟩
    · exact Or.inr ⟨i, r, List.mem_cons_of_mem _ hm, hpd⟩

/-- One `forEach` iteration touches the request array at most by `delete`. -/
theorem pairStep_reqs {α : Type} (render : Packet → α) (st : PairState α)
    (ir : Nat × ParsedData) :
    (pairStep render st ir).reqs = st.reqs ∨
    ∃ k, (pairStep render st ir).reqs = st.reqs.set k none := by
  cases h : matchScan ir.2 st.acks with
  | nil => left; simp [pairStep, h]
  | cons m rest => right; exact ⟨ir.1, by simp [pairStep, h]⟩

/-- Punching a hole only removes elements from the present-element view. -/
theorem mem_filterMap_id_set_none {α : Type} :
    ∀ (l : List (Option α)) (k : Nat) (x : α),
      x ∈ (l.set k none).filterMap id → x ∈ l.filterMap id := by
  intro l
  induction l with
  | nil => intro k x h; simp at h
  | cons o rest ih =>
    intro k x h
    cases k with
    | zero =>
      cases o with
      | none => simpa using h
      | some a =>
        have h' : x ∈ List.filterMap id rest := by simpa using h
        simp only [List.filterMap_cons, id, List.mem_cons]
        exact Or.inr h'
    | succ k' =>
      cases o with
      | none =>
        have h' : x ∈ List.filterMap id (rest.set k' none) := by simpa using h
        simpa using ih k' x h'
      | some a =>
        have h' : x = a ∨ x ∈ List.filterMap id (rest.set k' none) := by
          simpa using h
        rcases h' with h1 | h2
        · simp [h1]
        · have := ih k' x h2
          simp only [List.filterMap_cons, id, List.mem_cons]
          exact Or.inr this

/-- The present elements of the request array after the whole loop are among
the original requests (the loop only deletes entries). -/
theorem pairLoop_reqs_subset {α : Type} (render : Packet → α) :
    ∀ (reqs : List (Nat × ParsedData)) (st : PairState α) (x : ParsedData),
      x ∈ (pairLoop render st reqs).reqs.filterMap id →
      x ∈ st.reqs.filterMap id := by
  intro reqs
  induction reqs with
  | nil => intro st x h; exact h
  | cons ir rest ih =>
    intro st x h
    have h' := ih (pairStep render st ir) x h
    rcases pairStep_reqs render st ir with heq | ⟨k, heq⟩
    · rwa [heq] at h'
    · rw [heq] at h'
      exact mem_filterMap_id_set_none st.reqs k x h'

/-- A fully present array views back to the original list. -/
theorem filterMap_id_map_some {α : Type} (l : List α) :
    (l.map some).filterMap id = l := by
  induction l with
  | nil => rfl
  | cons a rest ih => simp [ih]

/-- C3 (amended): every packet with `ackType == 0` is emitted in the singular
set; no packet with `ackType == 0` can become the request member of a pair
(the candidate-request filter demands `ackType !== 0`); and an `ackType == 0`
packet can reach the unpaired output only through the leftover-response sweep
- never as an unpaired request from the matching pass, nor from the
leftover-request sweep, both of which draw from the candidate-request filter.
However, because the candidate-response filter tests only
`commandType === 1`, a packet with `commandType == 1` and `ackType == 0`
additionally enters the response flow and can reach the paired (as a
response) or unpaired outputs, as the counterexample shows. -/
theorem c3_amended_ack0_in_singular (parsedPackets : List ParsedData) :
    (∀ x ∈ parsedPackets, x.packet.ackType = 0 →
       toPacketData id x ∈ (pairPackets id parsedPackets).singularPackets) ∧
    (∀ pr ∈ (pairPackets id parsedPackets).pairedPackets,
       pr.request.packet.ackType ≠ 0) ∧
    (∀ pd ∈ (pairPackets id parsedPackets).unpairedPackets,
       pd.packet.ackType = 0 →
       pd ∈ ((pairLoop id
           ⟨((parsedPackets.filter fun p => p.packet.commandType == 1).map some),
            ((parsedPackets.filter fun p =>
                p.packet.commandType == 0 && p.packet.ackType != 0).map some),
            [], []⟩
           (parsedPackets.filter fun p =>
              p.packet.commandType == 0 &&
                p.packet.ackType != 0).enum).acks.filterMap id).map
          (toPacketData id)) := by
  refine ⟨?_, ?_, ?_⟩
  · intro x hx hack
    have hxf : x ∈ parsedPackets.filter fun p => p.packet.ackType == 0 :=
      List.mem_filter.2 ⟨hx, by simp [hack]⟩
    simpa [pairPackets] using List.mem_map_of_mem (toPacketData id) hxf
  · intro pr hpr
    have h0 : pr ∈ (pairLoop id
        ⟨((parsedPackets.filter fun p => p.packet.commandType == 1).map some),
         ((parsedPackets.filter fun p =>
             p.packet.commandType == 0 && p.packet.ackType != 0).map some),
         [], []⟩
        (parsedPackets.filter fun p =>
           p.packet.commandType == 0 && p.packet.ackType != 0).enum).paired := by
      simpa [pairPackets] using hpr
    rcases pairLoop_paired id _ _ pr h0 with hin | ⟨i, r, m, hmem, _, hpr'⟩
    · simp at hin
    · subst hpr'
      have hr := mem_of_mem_enum' hmem
      have hpred := (List.mem_filter.1 hr).2
      simp only [Bool.and_eq_true, bne_iff_ne, beq_iff_eq] at hpred
      simpa [toPacketData] using hpred.2
  · intro pd hpd hack
    have hsplit : pd ∈ (pairLoop id
        ⟨((parsedPackets.filter fun p => p.packet.commandType == 1).map some),
         ((parsedPackets.filter fun p =>
             p.packet.commandType == 0 && p.packet.ackType != 0).map some),
         [], []⟩
        (parsedPackets.filter fun p =>
           p.packet.commandType == 0 && p.packet.ackType != 0).enum).unpaired ++
        ((if (parsedPackets.filter fun p => p.packet.commandType == 1).length > 0
          then ((pairLoop id
              ⟨((parsedPackets.filter fun p => p.packet.commandType == 1).map some),
               ((parsedPackets.filter fun p =>
                   p.packet.commandType == 0 && p.packet.ackType != 0).map some),
               [], []⟩
              (parsedPackets.filter fun p =>
                 p.packet.commandType == 0 &&
                   p.packet.ackType != 0).enum).acks.filterMap id).map
            (toPacketData id)
          else []) ++
         (if (parsedPackets.filter fun p =>
               p.packet.commandType == 0 && p.packet.ackType != 0).length > 0
          then ((pairLoop id
              ⟨((parsedPackets.filter fun p => p.packet.commandType == 1).map some),
               ((parsedPackets.filter fun p =>
                   p.packet.commandType == 0 && p.packet.ackType != 0).map some),
               [], []⟩
              (parsedPackets.filter fun p =>
                 p.packet.commandType == 0 &&
                   p.packet.ackType != 0).enum).reqs.filterMap id).map
            (toPacketData id)
          else [])) := by
      simpa [pairPackets, List.append_assoc] using hpd
    rcases List.mem_append.1 hsplit with hu | hrest
    · rcases pairLoop_unpaired id _ _ pd hu with hin | ⟨i, r, hmem, hpd'⟩
      · simp at hin
      · exfalso
        have hr := mem_of_mem_enum' hmem
        have hpred := (List.mem_filter.1 hr).2
        simp only [Bool.and_eq_true, bne_iff_ne, beq_iff_eq] at hpred
        rw [hpd'] at hack
        exact hpred.2 (by simpa [toPacketData] using hack)
    · rcases List.mem_append.1 hrest with hA | hR
      · rcases Decidable.em
            ((parsedPackets.filter fun p => p.packet.commandType == 1).length > 0)
          with hc | hc
        · rw [if_pos hc] at hA
          exact hA
        · rw [if_neg hc] at hA
          simp at hA
      · exfalso
        rcases Decidable.em
            ((parsedPackets.filter fun p =>
                p.packet.commandType == 0 && p.packet.ackType != 0).length > 0)
          with hc | hc
        · rw [if_pos hc] at hR
          rcases List.mem_map.1 hR with ⟨r, hrmem, hpd'⟩
          have hr0 := pairLoop_reqs_subset id _ _ r hrmem
          rw [filterMap_id_map_some] at hr0
          have hpred := (List.mem_filter.1 hr0).2
          simp only [Bool.and_eq_true, bne_iff_ne, beq_iff_eq] at hpred
          rw [← hpd'] at hack
          exact hpred.2 (by simpa [toPacketData] using hack)
        · rw [if_neg hc] at hR
          simp at hR

/-- C3 witness for the amended claim: the `ackType = 0` packet of a concrete
input is found in the singular output. -/
theorem c3_amended_ack0_in_singular_witness :
    (⟨"t1", Direction.RX, ⟨2, 1, 0, 5, true⟩⟩ : ParsedData) ∈
      ([⟨"t1", Direction.RX, ⟨2, 1, 0, 5, true⟩⟩] : List ParsedData) ∧
    (⟨"t1", Direction.RX, ⟨2, 1, 0, 5, true⟩⟩ : ParsedData).packet.ackType = 0 ∧
    toPacketData id ⟨"t1", Direction.RX, ⟨2, 1, 0, 5, true⟩⟩ ∈
      (pairPackets id
        ([⟨"t1", Direction.RX, ⟨2, 1, 0, 5, true⟩⟩] : List ParsedData)).singularPackets :=
  ⟨by decide, by decide,
   (c3_amended_ack0_in_singular
       ([⟨"t1", Direction.RX, ⟨2, 1, 0, 5, true⟩⟩] : List ParsedData)).1
     ⟨"t1", Direction.RX, ⟨2, 1, 0, 5, true⟩⟩ (by decide) (by decide)⟩

/-- The first matching-scan entry carries the first present matching
response, i.e. the value `.at(0)` picks. -/
theorem matchScanGo_head_find (r : ParsedData) :
    ∀ (acks : List (Option ParsedData)) (n : Nat),
      ((matchScanGo r n acks).head?).map Prod.snd =
        (acks.filterMap id).find? (fun p => ackMatches r p) := by
  intro acks
  induction acks with
  | nil => intro n; simp [matchScanGo]
  | cons o rest ih =>
    intro n
    cases o with
    | none => simpa [matchScanGo] using ih (n + 1)
    | some p =>
      by_cases hm : ackMatches r p
      · simp [matchScanGo, hm, List.find?_cons_of_pos]
      · simpa [matchScanGo, hm, List.find?_cons_of_neg] using ih (n + 1)

/-- Scan entries carry indices at or above the starting offset. -/
theorem matchScanGo_le (r : ParsedData) :
    ∀ (acks : List (Option ParsedData)) (n : Nat) (jq : Nat × ParsedData),
      jq ∈ matchScanGo r n acks → n ≤ jq.1 := by
  intro acks
  induction acks with
  | nil => intro n jq h; simp [matchScanGo] at h
  | cons o rest ih =>
    intro n jq h
    cases o with
    | none =>
      simp only [matchScanGo] at h
      exact Nat.le_of_succ_le (ih (n + 1) jq h)
    | some p =>
      by_cases hm : ackMatches r p
      · simp only [matchScanGo, hm, if_true] at h
        rcases List.mem_cons.1 h with h1 | h2
        · rw [h1]
        · exact Nat.le_of_succ_le (ih (n + 1) jq h2)
      · simp only [matchScanGo, hm, Bool.false_eq_true, if_false] at h
        exact Nat.le_of_succ_le (ih (n + 1) jq h)

/-- If the scan is empty, no present element of the array matches. -/
theorem matchScanGo_eq_nil (r : ParsedData) :
    ∀ (acks : List (Option ParsedData)) (n : Nat),
      matchScanGo r n acks = [] →
      ∀ (k : Nat) (p : ParsedData), acks.get? k = some (some p) →
        ackMatches r p = false := by
  intro acks
  induction acks with
  | nil => intro n _ k p hk; simp [List.get?] at hk
  | cons o rest ih =>
    intro n h k p hk
    cases o with
    | none =>
      simp only [matchScanGo] at h
      cases k with
      | zero => simp [List.get?] at hk
      | succ k' => exact ih (n + 1) h k' p hk
    | some p0 =>
      by_cases hm : ackMatches r p0
      · simp [matchScanGo, hm] at h
      · simp only [matchScanGo, hm, Bool.false_eq_true, if_false] at h
        cases k with
        | zero =>
          have : p0 = p := by simpa [List.get?] using hk
          rw [← this]
          simpa using hm
        | succ k' => exact ih (n + 1) h k' p hk

/-- Every scan entry points at a present matching element of the array. -/
theorem matchScanGo_mem_get (r : ParsedData) :
    ∀ (acks : List (Option ParsedData)) (n : Nat) (jq : Nat × ParsedData),
      jq ∈ matchScanGo r n acks →
      acks.get? (jq.1 - n) = some (some jq.2) := by
  intro acks
  induction acks with
  | nil => intro n jq h; simp [matchScanGo] at h
  | cons o rest ih =>
    intro n jq h
    cases o with
    | none =>
      simp only [matchScanGo] at h
      have hle := matchScanGo_le r rest (n + 1) jq h
      have := ih (n + 1) jq h
      have hsub : jq.1 - n = (jq.1 - (n + 1)) + 1 := by omega
      rw [hsub]
      simpa [List.get?] using this
    | some p0 =>
      by_cases hm : ackMatches r p0
      · simp only [matchScanGo, hm, if_true] at h
        rcases List.mem_cons.1 h with h1 | h2
        · rw [h1]; simp [List.get?]
        · have hle := matchScanGo_le r rest (n + 1) jq h2
          have := ih (n + 1) jq h2
          have hsub : jq.1 - n = (jq.1 - (n + 1)) + 1 := by omega
          rw [hsub]
          simpa [List.get?] using this
      · simp only [matchScanGo, hm, Bool.false_eq_true, if_false] at h
        have hle := matchScanGo_le r rest (n + 1) jq h
        have := ih (n + 1) jq h
        have hsub : jq.1 - n = (jq.1 - (n + 1)) + 1 := by omega
        rw [hsub]
        simpa [List.get?] using this

/-- The index of the LAST scan entry (the final value of `matchedIndex`)
dominates the index of every present matching element. -/
theorem matchScanGo_getLast_max (r : ParsedData) :
    ∀ (acks : List (Option ParsedData)) (n j : Nat) (q : ParsedData),
      (matchScanGo r n acks).getLast? = some (j, q) →
      ∀ (k : Nat) (p : ParsedData), acks.get? k = some (some p) →
        ackMatches r p = true → n + k ≤ j := by
  intro acks
  induction acks with
  | nil => intro n j q h; simp [matchScanGo] at h
  | cons o rest ih =>
    intro n j q h k p hk hp
    cases o with
    | none =>
      simp only [matchScanGo] at h
      cases k with
      | zero => simp [List.get?] at hk
      | succ k' =>
        have := ih (n + 1) j q h k' p hk hp
        omega
    | some p0 =>
      by_cases hm : ackMatches r p0
      · simp only [matchScanGo, hm, if_true] at h
        cases hrest : matchScanGo r (n + 1) rest with
        | nil =>
          rw [hrest] at h
          simp only [List.getLast?_singleton, Option.some.injEq, Prod.mk.injEq] at h
          cases k with
          | zero => omega
          | succ k' =>
            have hnil := matchScanGo_eq_nil r rest (n + 1) hrest k' p hk
            rw [hp] at hnil
            cases hnil
        | cons m0 ms =>
          rw [hrest, List.getLast?_cons_cons] at h
          have hlast : (matchScanGo r (n + 1) rest).getLast? = some (j, q) := by
            rw [hrest]
            exact h
          cases k with
          | zero =>
            have hmem : (j, q) ∈ matchScanGo r (n + 1) rest := by
              rw [hrest]
              have hg := List.getLast?_eq_getLast (m0 :: ms) (List.cons_ne_nil m0 ms)
              rw [hg, Option.some.injEq] at h
              rw [← h]
              exact List.getLast_mem (List.cons_ne_nil m0 ms)
            have := matchScanGo_le r rest (n + 1) (j, q) hmem
            omega
          | succ k' =>
            have := ih (n + 1) j q hlast k' p hk hp
            omega
      · simp only [matchScanGo, hm, Bool.false_eq_true, if_false] at h
        cases k with
        | zero =>
          have : p0 = p := by simpa [List.get?] using hk
          rw [← this] at hp
          exact absurd hp hm
        | succ k' =>
          have := ih (n + 1) j q h k' p hk hp
          omega

/-- C2 (amended): for each candidate request, in order, the matching pass
emits as the pair's response the FIRST still-present candidate response with
equal `sequenceID` and opposite direction, but it deletes the LAST
still-present such response (the final value the filter callback left in
`matchedIndex`).  When exactly one response qualifies these coincide and the
matched response is consumed; when several qualify the emitted earliest
response stays eligible for later requests while the latest is removed, so a
response is NOT consumed by at most one request (see the counterexample). -/
theorem c2_amended_emit_first_delete_last {α : Type} (render : Packet → α)
    (st : PairState α) (i : Nat) (r : ParsedData) :
    (matchScan r st.acks = [] →
       pairStep render st (i, r) =
         { st with unpaired := st.unpaired ++ [toPacketData render r] }) ∧
    (∀ j q, (matchScan r st.acks).head? = some (j, q) →
       ((st.acks.filterMap id).find? (fun p => ackMatches r p) = some q ∧
        ∃ l ql, (matchScan r st.acks).getLast? = some (l, ql) ∧
          st.acks.get? l = some (some ql) ∧
          ackMatches r ql = true ∧
          (∀ k p, st.acks.get? k = some (some p) →
             ackMatches r p = true → k ≤ l) ∧
          pairStep render st (i, r) =
            { st with
                acks := st.acks.set l none,
                reqs := st.reqs.set i none,
                paired := st.paired ++
                  [⟨toPacketData render r, toPacketData render q⟩] })) := by
  constructor
  · intro h
    simp [pairStep, h]
  · intro j q hj
    have hfind : ((matchScan r st.acks).head?).map Prod.snd =
        (st.acks.filterMap id).find? (fun p => ackMatches r p) :=
      matchScanGo_head_find r st.acks 0
    cases hms : matchScan r st.acks with
    | nil => rw [hms] at hj; simp at hj
    | cons m rest =>
      rw [hms] at hj
      have hmjq : m = (j, q) := by simpa using hj
      constructor
      · rw [hms, hmjq] at hfind
        simpa using hfind.symm
      · refine ⟨(List.getLast (m :: rest) (List.cons_ne_nil m rest)).1,
               (List.getLast (m :: rest) (List.cons_ne_nil m rest)).2,
               ?_, ?_, ?_, ?_, ?_⟩
        · rw [List.getLast?_eq_getLast (m :: rest) (List.cons_ne_nil m rest)]
        · have hmem : List.getLast (m :: rest) (List.cons_ne_nil m rest) ∈
              matchScan r st.acks := by
            rw [hms]
            exact List.getLast_mem (List.cons_ne_nil m rest)
          have := matchScanGo_mem_get r st.acks 0
            (List.getLast (m :: rest) (List.cons_ne_nil m rest)) hmem
          simpa using this
        · have hmem : List.getLast (m :: rest) (List.cons_ne_nil m rest) ∈
              matchScan r st.acks := by
            rw [hms]
            exact List.getLast_mem (List.cons_ne_nil m rest)
          exact matchScanGo_matches st.acks 0 _ hmem
        · intro k p hk hp
          have hlast : (matchScan r st.acks).getLast? =
              some ((List.getLast (m :: rest) (List.cons_ne_nil m rest)).1,
                    (List.getLast (m :: rest) (List.cons_ne_nil m rest)).2) := by
            rw [hms, List.getLast?_eq_getLast (m :: rest) (List.cons_ne_nil m rest)]
          have := matchScanGo_getLast_max r st.acks 0 _ _ hlast k p hk hp
          omega
        · have hq : q = m.2 := by rw [hmjq]
          subst hq
          simp [pairStep, hms]

/-- C2 witness for the amended claim: at a concrete state with two matching
responses, the first present match is what `.at(0)` emits. -/
theorem c2_amended_emit_first_delete_last_witness :
    (matchScan ⟨"t1", Direction.TX, ⟨2, 0, 1, 7, true⟩⟩
        ([some ⟨"t2", Direction.RX, ⟨2, 1, 1, 7, true⟩⟩,
          some ⟨"t3", Direction.RX, ⟨2, 1, 1, 7, true⟩⟩] :
          List (Option ParsedData))).head? =
      some (0, ⟨"t2", Direction.RX, ⟨2, 1, 1, 7, true⟩⟩) ∧
    (([some ⟨"t2", Direction.RX, ⟨2, 1, 1, 7, true⟩⟩,
       some ⟨"t3", Direction.RX, ⟨2, 1, 1, 7, true⟩⟩] :
        List (Option ParsedData)).filterMap id).find?
      (fun p => ackMatches ⟨"t1", Direction.TX, ⟨2, 0, 1, 7, true⟩⟩ p) =
      some ⟨"t2", Direction.RX, ⟨2, 1, 1, 7, true⟩⟩ :=
  ⟨by decide,
   ((c2_amended_emit_first_delete_last id
       (⟨[some ⟨"t2", Direction.RX, ⟨2, 1, 1, 7, true⟩⟩,
          some ⟨"t3", Direction.RX, ⟨2, 1, 1, 7, true⟩⟩], [], [], []⟩ :
         PairState Packet)
       0 ⟨"t1", Direction.TX, ⟨2, 0, 1, 7, true⟩⟩).2
     0 ⟨"t2", Direction.RX, ⟨2, 1, 1, 7, true⟩⟩ (by decide)).1⟩

/-- C5: in a Frame Extractor iteration whose first decode succeeded with
`p0`, if `p0` is invalid and its declared byte length is smaller than the
bytes available (half the hex characters), the accepted packet is the result
of re-decoding the first `length` bytes; in every other case the originally
decoded packet is accepted unchanged.  (The source guard on line 141 compares
against `hexString.length * 2` instead of the available byte count, but in
the extra region this admits the re-decode truncates to at least the whole
buffer and therefore returns `p0` again.) -/
theorem c5_truncation_redecode (decode : List Char → Option Packet)
    (hex : List Char) (p0 : Packet) (hdec : decode hex = some p0) :
    (p0.isValid = false → 2 * p0.length < hex.length →
       acceptPacket decode hex p0 = decode (hex.take (p0.length * 2))) ∧
    ((p0.isValid = true ∨ hex.length ≤ 2 * p0.length) →
       acceptPacket decode hex p0 = some p0) := by
  constructor
  · intro hv hlt
    have hcond : p0.length < hex.length * 2 := by omega
    simp [acceptPacket, hv, hcond]
  · intro h
    rcases h with hv | hle
    · simp [acceptPacket, hv]
    · by_cases hv : p0.isValid
      · simp [acceptPacket, hv]
      · by_cases hcond : p0.length < hex.length * 2
        · have htake : hex.take (p0.length * 2) = hex :=
            List.take_of_length_le (by omega)
          simp only [acceptPacket, hv, hcond, Bool.not_false, Bool.true_and,
            if_true, htake]
          simp [hv, hcond, hdec]
        · simp [acceptPacket, hv, hcond]

/-- C5 witness: a concrete codec for which the invalid over-read is
re-decoded from the truncated buffer. -/
theorem c5_truncation_redecode_witness :
    ((⟨1, 0, 0, 0, false⟩ : Packet).isValid = false ∧
     2 * (⟨1, 0, 0, 0, false⟩ : Packet).length <
       (['5', '5', 'A', 'A', 'B', 'B'] : List Char).length) ∧
    acceptPacket
        (fun l => if l.length = 6 then some ⟨1, 0, 0, 0, false⟩
                  else if l.length = 2 then some ⟨1, 0, 0, 1, true⟩
                  else none)
        ['5', '5', 'A', 'A', 'B', 'B'] ⟨1, 0, 0, 0, false⟩ =
      (fun l => if l.length = 6 then some ⟨1, 0, 0, 0, false⟩
                else if l.length = 2 then some ⟨1, 0, 0, 1, true⟩
                else none)
        ((['5', '5', 'A', 'A', 'B', 'B'] : List Char).take
          ((⟨1, 0, 0, 0, false⟩ : Packet).length * 2)) :=
  ⟨⟨by decide, by decide⟩,
   (c5_truncation_redecode
       (fun l => if l.length = 6 then some ⟨1, 0, 0, 0, false⟩
                 else if l.length = 2 then some ⟨1, 0, 0, 1, true⟩
                 else none)
       ['5', '5', 'A', 'A', 'B', 'B'] ⟨1, 0, 0, 0, false⟩ (by decide)).1
     (by decide) (by decide)⟩

/-- A `55`-prefixed buffer keeps its prefix under appending. -/
theorem isPrefixOf_append_of_isPrefixOf {p l t : List Char}
    (h : p.isPrefixOf l = true) : p.isPrefixOf (l ++ t) = true := by
  rw [List.isPrefixOf_iff_prefix] at h ⊢
  exact h.trans (l.prefix_append t)

/-- The sync-byte search: a successful `indexOf` marks an occurrence of the
pattern, so dropping everything before it leaves the pattern in front. -/
theorem indexOfSub_drop {pat : List Char} :
    ∀ (l : List Char) (i : Nat), indexOfSub pat l = some i →
      pat.isPrefixOf (l.drop i) = true := by
  intro l
  induction l with
  | nil =>
    intro i h
    simp only [indexOfSub] at h
    split at h
    · rename_i hp
      cases h
      simpa using hp
    · cases h
  | cons c rest ih =>
    intro i h
    simp only [indexOfSub] at h
    split at h
    · rename_i hp
      cases h
      simpa using hp
    · rcases Option.map_eq_some'.1 h with ⟨j, hj, hij⟩
      rw [← hij]
      simpa using ih j hj

/-- The carry-over buffer value produced by the extractor loop: it is the
caller's original value (no iteration wrote it), or empty, or begins with the
sync pattern; and unless untouched it is a suffix of the decoded data. -/
theorem processBufferGo_buf (decode : List Char → Option Packet)
    (direction : Direction) (timestamp : String) :
    ∀ (fuel : Nat) (hexString buf : List Char) (acc res : List ParsedData)
      (bufOut : List Char),
      processBufferGo decode direction timestamp hexString buf acc fuel =
        some (res, bufOut) →
      (bufOut = buf ∨ bufOut = [] ∨
        (['5', '5'] : List Char).isPrefixOf bufOut = true) ∧
      (bufOut = buf ∨ bufOut <:+ hexString) := by
  intro fuel
  induction fuel with
  | zero =>
    intro hex buf acc res bufOut h
    simp only [processBufferGo, Option.some.injEq, Prod.mk.injEq] at h
    exact ⟨Or.inl h.2.symm, Or.inl h.2.symm⟩
  | succ fuel ih =>
    intro hex buf acc res bufOut h
    rw [processBufferGo] at h
    cases hdec : decode hex with
    | none =>
      rw [hdec] at h
      simp only [Option.some.injEq, Prod.mk.injEq] at h
      exact ⟨Or.inl h.2.symm, Or.inl h.2.symm⟩
    | some p0 =>
      rw [hdec] at h
      dsimp only at h
      cases hacc : acceptPacket decode hex p0 with
      | none => rw [hacc] at h; cases h
      | some p =>
        rw [hacc] at h
        simp only at h
        by_cases hv : p.isValid
        · rw [if_pos hv] at h
          have hres := ih (hex.drop (p.length * 2))
            (if (['5', '5'] : List Char).isPrefixOf (hex.drop (p.length * 2)) then
               hex.drop (p.length * 2) else [])
            (acc ++ [⟨timestamp, direction, p⟩]) res bufOut h
          constructor
          · rcases hres.1 with hb | hb | hb
            · by_cases hp : (['5', '5'] : List Char).isPrefixOf (hex.drop (p.length * 2))
              · rw [if_pos hp] at hb
                exact Or.inr (Or.inr (hb ▸ hp))
              · rw [if_neg hp] at hb
                exact Or.inr (Or.inl hb)
            · exact Or.inr (Or.inl hb)
            · exact Or.inr (Or.inr hb)
          · rcases hres.2 with hb | hb
            · by_cases hp : (['5', '5'] : List Char).isPrefixOf (hex.drop (p.length * 2))
              · rw [if_pos hp] at hb
                exact Or.inr (hb ▸ List.drop_suffix _ _)
              · rw [if_neg hp] at hb
                exact Or.inr (hb ▸ List.nil_suffix)
            · exact Or.inr (hb.trans (List.drop_suffix _ _))
        · rw [if_neg hv] at h
          simp only [Option.some.injEq, Prod.mk.injEq] at h
          constructor
          · by_cases hp : (['5', '5'] : List Char).isPrefixOf (hex.drop (p.length * 2))
            · rw [← h.2, if_pos hp]
              exact Or.inr (Or.inr hp)
            · rw [← h.2, if_neg hp]
              exact Or.inr (Or.inl rfl)
          · by_cases hp : (['5', '5'] : List Char).isPrefixOf (hex.drop (p.length * 2))
            · rw [← h.2, if_pos hp]
              exact Or.inr (List.drop_suffix _ _)
            · rw [← h.2, if_neg hp]
              exact Or.inr List.nil_suffix

/-- Buffer evolution across one direction-branch body: the new buffer value
keeps the sync prefix once non-empty, and is the old buffer untouched or a
suffix of the old buffer extended by a suffix of the sanitized chunk. -/
theorem feedChunk_buf (decode : List Char → Option Packet) (timestamp : String)
    (direction : Direction) (st : PState) (cur hex0 : List Char)
    (st' : PState) (buf' : List Char)
    (h : feedChunk decode timestamp direction st cur hex0 = some (st', buf'))
    (hcur : cur ≠ [] → (['5', '5'] : List Char).isPrefixOf cur = true) :
    (buf' ≠ [] → (['5', '5'] : List Char).isPrefixOf buf' = true) ∧
    (buf' = cur ∨ ∃ t, t <:+ hex0 ∧ buf' <:+ cur ++ t) := by
  unfold feedChunk at h
  by_cases hc : cur.length = 0
  · have hcurnil : cur = [] := List.length_eq_zero.1 hc
    rw [if_pos hc] at h
    cases hidx : indexOfSub ['5', '5'] hex0 with
    | none =>
      rw [hidx] at h
      dsimp only at h
      simp only [Option.some.injEq, Prod.mk.injEq] at h
      rw [← h.2]
      exact ⟨hcur, Or.inl rfl⟩
    | some i =>
      rw [hidx] at h
      dsimp only at h
      have hp : (['5', '5'] : List Char).isPrefixOf (hex0.drop i) = true :=
        indexOfSub_drop hex0 i hidx
      by_cases hz : (cur ++ hex0.drop i).length = 0
      · rw [if_pos hz] at h
        simp only [Option.some.injEq, Prod.mk.injEq] at h
        rw [← h.2]
        refine ⟨fun _ => ?_, Or.inr ⟨hex0.drop i, List.drop_suffix _ _, List.suffix_rfl⟩⟩
        rw [hcurnil, List.nil_append]
        exact hp
      · rw [if_neg hz] at h
        cases hpb : processBuffer decode direction timestamp (cur ++ hex0.drop i) with
        | none => rw [hpb] at h; cases h
        | some pr =>
          rw [hpb] at h
          dsimp only at h
          simp only [Option.some.injEq, Prod.mk.injEq] at h
          have hbuf := processBufferGo_buf decode direction timestamp
            ((cur ++ hex0.drop i).length + 1) (cur ++ hex0.drop i)
            (cur ++ hex0.drop i) [] pr.1 pr.2 (by
              rw [← hpb]
              unfold processBuffer
              rfl)
          rw [← h.2]
          constructor
          · intro hne
            rcases hbuf.1 with hb | hb | hb
            · rw [hb, hcurnil, List.nil_append]
              exact hp
            · exact absurd hb hne
            · exact hb
          · refine Or.inr ⟨hex0.drop i, List.drop_suffix _ _, ?_⟩
            rcases hbuf.2 with hb | hb
            · rw [hb]
            · exact hb.trans List.suffix_rfl
  · have hcurne : cur ≠ [] := fun hnil => hc (by rw [hnil]; rfl)
    rw [if_neg hc] at h
    dsimp only at h
    have hp : (['5', '5'] : List Char).isPrefixOf (cur ++ hex0) = true :=
      isPrefixOf_append_of_isPrefixOf (hcur hcurne)
    by_cases hz : (cur ++ hex0).length = 0
    · rw [if_pos hz] at h
      simp only [Option.some.injEq, Prod.mk.injEq] at h
      rw [← h.2]
      exact ⟨fun _ => hp, Or.inr ⟨hex0, List.suffix_rfl, List.suffix_rfl⟩⟩
    · rw [if_neg hz] at h
      cases hpb : processBuffer decode direction timestamp (cur ++ hex0) with
      | none => rw [hpb] at h; cases h
      | some pr =>
        rw [hpb] at h
        dsimp only at h
        simp only [Option.some.injEq, Prod.mk.injEq] at h
        have hbuf := processBufferGo_buf decode direction timestamp
          ((cur ++ hex0).length + 1) (cur ++ hex0) (cur ++ hex0) [] pr.1 pr.2 (by
            rw [← hpb]
            unfold processBuffer
            rfl)
        rw [← h.2]
        constructor
        · intro hne
          rcases hbuf.1 with hb | hb | hb
          · rw [hb]; exact hp
          · exact absurd hb hne
          · exact hb
        · refine Or.inr ⟨hex0, List.suffix_rfl, ?_⟩
          rcases hbuf.2 with hb | hb
          · rw [hb]
          · exact hb

/-- The direction-branch body never touches the two buffer fields of the
state record it returns (the caller installs the returned buffer value). -/
theorem feedChunk_rx_tx (decode : List Char → Option Packet) (timestamp : String)
    (direction : Direction) (st : PState) (cur hex0 : List Char)
    (st' : PState) (buf' : List Char)
    (h : feedChunk decode timestamp direction st cur hex0 = some (st', buf')) :
    st'.rx = st.rx ∧ st'.tx = st.tx := by
  unfold feedChunk at h
  by_cases hc : cur.length = 0
  · rw [if_pos hc] at h
    cases hidx : indexOfSub ['5', '5'] hex0 with
    | none =>
      rw [hidx] at h
      dsimp only at h
      simp only [Option.some.injEq, Prod.mk.injEq] at h
      rw [← h.1]
      exact ⟨rfl, rfl⟩
    | some i =>
      rw [hidx] at h
      dsimp only at h
      by_cases hz : (cur ++ hex0.drop i).length = 0
      · rw [if_pos hz] at h
        simp only [Option.some.injEq, Prod.mk.injEq] at h
        rw [← h.1]
        exact ⟨rfl, rfl⟩
      · rw [if_neg hz] at h
        cases hpb : processBuffer decode direction timestamp (cur ++ hex0.drop i) with
        | none => rw [hpb] at h; cases h
        | some pr =>
          rw [hpb] at h
          dsimp only at h
          simp only [Option.some.injEq, Prod.mk.injEq] at h
          rw [← h.1]
          exact ⟨rfl, rfl⟩
  · rw [if_neg hc] at h
    dsimp only at h
    by_cases hz : (cur ++ hex0).length = 0
    · rw [if_pos hz] at h
      simp only [Option.some.injEq, Prod.mk.injEq] at h
      rw [← h.1]
      exact ⟨rfl, rfl⟩
    · rw [if_neg hz] at h
      cases hpb : processBuffer decode direction timestamp (cur ++ hex0) with
      | none => rw [hpb] at h; cases h
      | some pr =>
        rw [hpb] at h
        dsimp only at h
        simp only [Option.some.injEq, Prod.mk.injEq] at h
        rw [← h.1]
        exact ⟨rfl, rfl⟩

/-- One `data` event preserves the buffer invariant, and each buffer either
stays untouched or becomes a suffix of itself extended by (a suffix of) the
sanitized chunk text. -/
theorem stepRow_buffInv (decode : List Char → Option Packet) (st : PState)
    (row : Row) (st' : PState) (h : stepRow decode st row = some st')
    (hinv : buffInv st) :
    buffInv st' ∧
    (st'.rx = st.rx ∨ ∃ t, t <:+ row.hexRaw.filter (fun c => !c.isWhitespace) ∧
       st'.rx <:+ st.rx ++ t) ∧
    (st'.tx = st.tx ∨ ∃ t, t <:+ row.hexRaw.filter (fun c => !c.isWhitespace) ∧
       st'.tx <:+ st.tx ++ t) := by
  unfold stepRow at h
  by_cases hm : row.marker = "0"
  · rw [if_pos hm] at h
    by_cases hd : (containsSub ['I', 'N'] row.dirToken ||
        containsSub ['O', 'U', 'T'] row.dirToken) = true
    · rw [hd] at h
      dsimp only [Bool.not_true] at h
      rw [if_neg (by simp)] at h
      by_cases hlen : (row.hexRaw.filter (fun c => !c.isWhitespace)).length = 0
      · rw [if_pos hlen] at h
        simp only [Option.some.injEq] at h
        rw [← h]
        exact ⟨hinv, Or.inl rfl, Or.inl rfl⟩
      · rw [if_neg hlen] at h
        by_cases hin : containsSub ['I', 'N'] row.dirToken = true
        · rw [if_pos hin] at h
          dsimp only at h
          cases hfc : feedChunk decode row.timestamp Direction.RX st st.rx
              (row.hexRaw.filter (fun c => !c.isWhitespace)) with
          | none => rw [hfc] at h; cases h
          | some pr =>
            rw [hfc] at h
            dsimp only at h
            simp only [Option.some.injEq] at h
            have hft := feedChunk_rx_tx decode row.timestamp Direction.RX st st.rx
              (row.hexRaw.filter (fun c => !c.isWhitespace)) pr.1 pr.2 (by
                rw [hfc])
            have hfb := feedChunk_buf decode row.timestamp Direction.RX st st.rx
              (row.hexRaw.filter (fun c => !c.isWhitespace)) pr.1 pr.2 (by
                rw [hfc]) hinv.1
            rw [← h]
            refine ⟨⟨fun hne => hfb.1 hne, fun hne => ?_⟩, ?_, Or.inl hft.2⟩
            · have h2 := hinv.2 (by simpa [hft.2] using hne)
              simpa [hft.2] using h2
            · rcases hfb.2 with hb | ⟨t, ht, hsfx⟩
              · exact Or.inl hb
              · exact Or.inr ⟨t, ht, hsfx⟩
        · rw [if_neg hin] at h
          dsimp only at h
          cases hfc : feedChunk decode row.timestamp Direction.TX st st.tx
              (row.hexRaw.filter (fun c => !c.isWhitespace)) with
          | none => rw [hfc] at h; cases h
          | some pr =>
            rw [hfc] at h
            dsimp only at h
            simp only [Option.some.injEq] at h
            have hft := feedChunk_rx_tx decode row.timestamp Direction.TX st st.tx
              (row.hexRaw.filter (fun c => !c.isWhitespace)) pr.1 pr.2 (by
                rw [hfc])
            have hfb := feedChunk_buf decode row.timestamp Direction.TX st st.tx
              (row.hexRaw.filter (fun c => !c.isWhitespace)) pr.1 pr.2 (by
                rw [hfc]) hinv.2
            rw [← h]
            refine ⟨⟨fun hne => ?_, fun hne => hfb.1 hne⟩, Or.inl hft.1, ?_⟩
            · have h2 := hinv.1 (by simpa [hft.1] using hne)
              simpa [hft.1] using h2
            · rcases hfb.2 with hb | ⟨t, ht, hsfx⟩
              · exact Or.inl hb
              · exact Or.inr ⟨t, ht, hsfx⟩
    · have hd' : (containsSub ['I', 'N'] row.dirToken ||
          containsSub ['O', 'U', 'T'] row.dirToken) = false := by
        simpa using hd
      rw [hd'] at h
      rw [if_pos (show (!false) = true from rfl)] at h
      simp only [Option.some.injEq] at h
      rw [← h]
      exact ⟨hinv, Or.inl rfl, Or.inl rfl⟩
  · rw [if_neg hm] at h
    simp only [Option.some.injEq] at h
    rw [← h]
    exact ⟨hinv, Or.inl rfl, Or.inl rfl⟩

/-- The buffer invariant is preserved along any run of `data` events. -/
theorem foldlM_stepRow_buffInv (decode : List Char → Option Packet) :
    ∀ (rows : List Row) (st : PState), buffInv st →
      ∀ st', List.foldlM (stepRow decode) st rows = some st' → buffInv st' := by
  intro rows
  induction rows with
  | nil =>
    intro st hinv st' h
    simp only [List.foldlM_nil, Option.pure_def, Option.some.injEq] at h
    rwa [← h]
  | cons row rest ih =>
    intro st hinv st' h
    rw [List.foldlM_cons] at h
    cases hstep : stepRow decode st row with
    | none => rw [hstep] at h; cases h
    | some mid =>
      rw [hstep] at h
      simp only [Option.bind_eq_bind, Option.some_bind] at h
      exact ih mid (stepRow_buffInv decode st row mid hstep hinv).1 st' h

/-- C6: throughout a processing run that starts with both DirectionBuffers
empty, a non-empty buffer always begins with the synchronization text `55`;
moreover each record leaves every buffer either untouched, or equal to a
suffix of (old buffer ++ a suffix of the sanitized incoming hex text) -
growth only by appending sanitized text, shrinkage only by dropping a front
portion (consumed packets, or a discarded non-synchronized remainder). -/
theorem c6_buffer_sync_invariant :
    (∀ (decode : List Char → Option Packet) (rows : List Row) (st' : PState),
       runRows decode rows = some st' → buffInv st') ∧
    (∀ (decode : List Char → Option Packet) (st : PState) (row : Row)
       (st' : PState), stepRow decode st row = some st' → buffInv st →
       (st'.rx = st.rx ∨ ∃ t, t <:+ row.hexRaw.filter (fun c => !c.isWhitespace) ∧
          st'.rx <:+ st.rx ++ t) ∧
       (st'.tx = st.tx ∨ ∃ t, t <:+ row.hexRaw.filter (fun c => !c.isWhitespace) ∧
          st'.tx <:+ st.tx ++ t)) := by
  constructor
  · intro decode rows st' h
    exact foldlM_stepRow_buffInv decode rows initState
      ⟨fun hne => absurd rfl hne, fun hne => absurd rfl hne⟩ st' h
  · intro decode st row st' h hinv
    exact (stepRow_buffInv decode st row st' h hinv).2

/-- C6 witness: the invariant evaluated on the final state of a concrete
run. -/
theorem c6_buffer_sync_invariant_witness :
    runRows (fun _ => none) [⟨"0", "t0", ['I', 'N'], ['0', '5', '5', '0']⟩] =
      some ⟨[], ['5', '5', '0'], [], 1, 0⟩ ∧
    buffInv ⟨[], ['5', '5', '0'], [], 1, 0⟩ :=
  ⟨by decide,
   c6_buffer_sync_invariant.1 (fun _ => none)
     [⟨"0", "t0", ['I', 'N'], ['0', '5', '5', '0']⟩]
     ⟨[], ['5', '5', '0'], [], 1, 0⟩ (by decide)⟩

/-- C9: when the decoder fails outright, the extractor stops and returns the
packets decoded so far in that call together with the carry-over buffer value
as last written (first conjunct, the `catch`/`return` path of the loop); in
particular a `data` event whose whole appended buffer fails to decode leaves
the results untouched and retains the entire buffer - old content plus the
new sanitized chunk - unconsumed for the next call (second conjunct, stated
for an RX record). -/
theorem c9_decode_failure_retention :
    (∀ (decode : List Char → Option Packet) (direction : Direction)
       (timestamp : String) (hexString buf : List Char) (acc : List ParsedData)
       (fuel : Nat), decode hexString = none →
       processBufferGo decode direction timestamp hexString buf acc (fuel + 1) =
         some (acc, buf)) ∧
    (∀ (decode : List Char → Option Packet) (st : PState) (row : Row),
       row.marker = "0" → containsSub ['I', 'N'] row.dirToken = true →
       row.hexRaw.filter (fun c => !c.isWhitespace) ≠ [] →
       st.rx ≠ [] →
       decode (st.rx ++ row.hexRaw.filter (fun c => !c.isWhitespace)) = none →
       stepRow decode st row =
         some { st with
                  rx := st.rx ++ row.hexRaw.filter (fun c => !c.isWhitespace),
                  processed := st.processed + 1 }) := by
  constructor
  · intro decode d ts hex buf acc fuel h
    rw [processBufferGo, h]
  · intro decode st row hm hin ht hrx hdec
    unfold stepRow
    rw [if_pos hm, hin]
    rw [if_neg (by simp)]
    dsimp only
    rw [if_neg (fun hl => ht (List.length_eq_zero.1 hl))]
    rw [if_pos (show (true : Bool) = true from rfl)]
    dsimp only
    unfold feedChunk
    rw [if_neg (fun hl : st.rx.length = 0 => hrx (List.length_eq_zero.1 hl))]
    dsimp only
    rw [if_neg (fun hl => hrx (by
      rcases List.append_eq_nil.1 (List.length_eq_zero.1 hl) with ⟨h1, _⟩
      exact h1))]
    unfold processBuffer
    rw [processBufferGo, hdec]
    dsimp only
    simp

/-- C9 witness: a concrete failing decode leaves results empty and retains
the whole appended buffer. -/
theorem c9_decode_failure_retention_witness :
    (['5', '5'] : List Char) ≠ [] ∧
    stepRow (fun _ => none) ⟨[], ['5', '5'], [], 0, 0⟩
        ⟨"0", "t1", ['I', 'N'], ['A', 'B']⟩ =
      some ⟨[], ['5', '5', 'A', 'B'], [], 1, 0⟩ :=
  ⟨by decide,
   c9_decode_failure_retention.2 (fun _ => none) ⟨[], ['5', '5'], [], 0, 0⟩
     ⟨"0", "t1", ['I', 'N'], ['A', 'B']⟩ rfl (by decide) (by decide) (by decide)
     rfl⟩

/-- C10: a record skipped by the Stream Reassembler - wrong record marker,
unclassifiable direction token, empty sanitized hex payload, or no
synchronization byte found while the direction's buffer is empty - leaves
both DirectionBuffers, the results and the processed counter exactly as they
were, incrementing only the skipped counter. -/
theorem c10_skipped_record_state_unchanged :
    ∀ (decode : List Char → Option Packet) (st : PState) (row : Row),
      (row.marker ≠ "0" ∨
       (containsSub ['I', 'N'] row.dirToken = false ∧
        containsSub ['O', 'U', 'T'] row.dirToken = false) ∨
       row.hexRaw.filter (fun c => !c.isWhitespace) = [] ∨
       (indexOfSub ['5', '5'] (row.hexRaw.filter (fun c => !c.isWhitespace)) =
          none ∧
        (if containsSub ['I', 'N'] row.dirToken = true then st.rx = []
         else st.tx = []))) →
      stepRow decode st row = some { st with skipped := st.skipped + 1 } := by
  intro decode st row hcase
  unfold stepRow
  by_cases hm : row.marker = "0"
  · rw [if_pos hm]
    by_cases hd : (containsSub ['I', 'N'] row.dirToken ||
        containsSub ['O', 'U', 'T'] row.dirToken) = true
    · rw [hd]
      rw [if_neg (by simp)]
      dsimp only
      by_cases hlen : (row.hexRaw.filter (fun c => !c.isWhitespace)).length = 0
      · rw [if_pos hlen]
      · rw [if_neg hlen]
        have hfour : indexOfSub ['5', '5']
            (row.hexRaw.filter (fun c => !c.isWhitespace)) = none ∧
            (if containsSub ['I', 'N'] row.dirToken = true then st.rx = []
             else st.tx = []) := by
          rcases hcase with h1 | h2 | h3 | h4
          · exact absurd hm h1
          · rw [h2.1, h2.2] at hd; simp at hd
          · exact absurd (by rw [h3]; rfl) hlen
          · exact h4
        by_cases hin : containsSub ['I', 'N'] row.dirToken = true
        · rw [if_pos hin]
          dsimp only
          have hbuf : st.rx = [] := by
            have h2 := hfour.2
            rwa [if_pos hin] at h2
          unfold feedChunk
          rw [if_pos (by rw [hbuf]; rfl)]
          rw [hfour.1]
        · rw [if_neg hin]
          dsimp only
          have hbuf : st.tx = [] := by
            have h2 := hfour.2
            rwa [if_neg hin] at h2
          unfold feedChunk
          rw [if_pos (by rw [hbuf]; rfl)]
          rw [hfour.1]
    · have hd' : (containsSub ['I', 'N'] row.dirToken ||
          containsSub ['O', 'U', 'T'] row.dirToken) = false := by
        simpa using hd
      rw [hd']
      rw [if_pos (show (!false) = true from rfl)]
  · rw [if_neg hm]

/-- C10 witness: a record with a non-payload marker only bumps the skipped
counter. -/
theorem c10_skipped_record_state_unchanged_witness :
    ("1" : String) ≠ "0" ∧
    stepRow (fun _ => none) ⟨[], [], [], 0, 0⟩
        ⟨"1", "t0", ['I', 'N'], ['5', '5']⟩ =
      some ⟨[], [], [], 0, 1⟩ :=
  ⟨by decide,
   c10_skipped_record_state_unchanged (fun _ => none) ⟨[], [], [], 0, 0⟩
     ⟨"1", "t0", ['I', 'N'], ['5', '5']⟩ (Or.inl (by decide))⟩
